import Mathlib

/-!
Verification of the worktree reconciliation engine, retirement service and
git-commit scanner of the stream-workflow-status dashboard.

The TypeScript sources are shallowly embedded as pure Lean functions:
the SQLite tables become explicit lists threaded through the operations,
the filesystem and git invocations become oracle inputs, and the wall
clock becomes an explicit timestamp argument.
-/

namespace StreamDash

/-- Lifecycle status of a stream (types/stream.ts). -/
inductive StreamStatus where
  | initializing
  | active
  | blocked
  | paused
  | completed
  | archived
deriving DecidableEq, Repr

/-- The string stored for a status in the database and in history events. -/
def statusToString : StreamStatus → String
  | .initializing => "initializing"
  | .active => "active"
  | .blocked => "blocked"
  | .paused => "paused"
  | .completed => "completed"
  | .archived => "archived"

/-- A persisted stream row.  Fields that none of the verified operations
read (category, priority, progress, phases, blockedBy, createdAt and the
like) are omitted from the embedding. -/
structure Stream where
  id : String
  title : String
  branch : String
  worktreePath : String
  status : StreamStatus
  completedAt : Option String
  updatedAt : String
deriving DecidableEq, Repr

/-- A row of the stream_history table (the autoincrement surrogate id is
omitted). -/
structure HistoryEvent where
  streamId : String
  eventType : String
  oldValue : Option String
  newValue : Option String
  timestamp : String
deriving DecidableEq, Repr

/-- The persisted state the reconciliation engine reads and writes: the
streams table (in the row order returned by getAllStreams) and the
stream_history table. -/
structure DB where
  streams : List Stream
  history : List HistoryEvent
deriving DecidableEq, Repr

/-- getAllStreams (database/queries/streams.ts): all rows whose id is not
the reserved main sentinel. -/
def getAllStreams (db : DB) : List Stream :=
  db.streams.filter (fun s => s.id != "main")

/-- updateStream with a status field (database/queries/streams.ts): sets
status and updated_at on the row with the given id. -/
def updateStreamStatus (db : DB) (sid : String) (st : StreamStatus) (now : String) : DB :=
  { db with streams := db.streams.map (fun s =>
      if s.id == sid then { s with status := st, updatedAt := now } else s) }

/-- completeStream (database/queries/streams.ts): sets status completed
and stamps completed_at and updated_at on the row with the given id. -/
def completeStream (db : DB) (sid : String) (now : String) : DB :=
  { db with streams := db.streams.map (fun s =>
      if s.id == sid then
        { s with status := .completed, completedAt := some now, updatedAt := now }
      else s) }

/-- addHistoryEvent (database/queries/history.ts): appends a row to
stream_history. -/
def addHistoryEvent (db : DB) (e : HistoryEvent) : DB :=
  { db with history := db.history ++ [e] }

/-- Info about one live git worktree (worktree-reconciliation.ts). -/
structure WorktreeInfo where
  path : String
  branch : String
  commitHash : String
  isMain : Bool
deriving DecidableEq, Repr

/-- The live worktree mapping returned by getWorktreeList: an
insertion-ordered map from stream key to worktree info, embedded as an
association list (a JS Map has no duplicate keys; where a theorem needs
that invariant it is a hypothesis). -/
abbrev WorktreeMap := List (String × WorktreeInfo)

/-- Map.get on the worktree mapping. -/
def lookupWt (wt : WorktreeMap) (sid : String) : Option WorktreeInfo :=
  (wt.find? (fun p => p.1 == sid)).map Prod.snd

/-- Options accepted by reconcileWorktrees.  autoAddOrphaned is accepted
by the source but never read. -/
structure ReconOptions where
  dryRun : Bool := true
  autoArchiveStale : Bool := false
  autoAddOrphaned : Bool := false
deriving DecidableEq, Repr

/-- One per-stream classification entry (StreamReconciliationEntry). -/
structure ReconEntry where
  streamId : String
  title : String
  branch : String
  worktreePath : String
  previousStatus : StreamStatus
  newStatus : Option StreamStatus
  reason : String
deriving DecidableEq, Repr

/-- The summary counters of a reconciliation result.  totalWorktrees is
an integer because the source computes worktrees.size - 1 with JS number
arithmetic. -/
structure ReconSummary where
  totalInDb : Nat
  totalWorktrees : Int
  active : Nat
  completed : Nat
  stale : Nat
  orphaned : Nat
  errors : Nat
deriving DecidableEq, Repr

/-- The structured result of reconcileWorktrees. -/
structure ReconResult where
  active : List ReconEntry
  completed : List ReconEntry
  stale : List ReconEntry
  orphaned : List WorktreeInfo
  errors : List (String × String)
  summary : ReconSummary
deriving DecidableEq, Repr

/-- Per-stream loop state of reconcileWorktrees: the buckets built so
far, the running counters, the matched-worktree key set and the current
database state. -/
structure ReconState where
  active : List ReconEntry
  completed : List ReconEntry
  stale : List ReconEntry
  cActive : Nat
  cCompleted : Nat
  cStale : Nat
  matched : List String
  db : DB
deriving DecidableEq, Repr

/-- The entry pushed for a merged stream. -/
def mkMergedEntry (s : Stream) : ReconEntry :=
  { streamId := s.id, title := s.title, branch := s.branch,
    worktreePath := s.worktreePath, previousStatus := s.status,
    newStatus := some .completed, reason := "Branch merged to main" }

/-- The entry pushed for a stale stream (worktree missing). -/
def mkStaleEntry (autoArchiveStale : Bool) (s : Stream) : ReconEntry :=
  { streamId := s.id, title := s.title, branch := s.branch,
    worktreePath := s.worktreePath, previousStatus := s.status,
    newStatus := if autoArchiveStale then some .archived else none,
    reason := "Worktree does not exist" }

/-- The entry pushed for an active stream. -/
def mkActiveEntry (s : Stream) : ReconEntry :=
  { streamId := s.id, title := s.title, branch := s.branch,
    worktreePath := s.worktreePath, previousStatus := s.status,
    newStatus := none, reason := "Worktree exists and branch not merged" }

/-- The status_changed history event appended when a stream is moved to a
new status. -/
def statusChangedEvent (s : Stream) (newStatus : StreamStatus) (now : String) : HistoryEvent :=
  { streamId := s.id, eventType := "status_changed",
    oldValue := some (statusToString s.status),
    newValue := some (statusToString newStatus), timestamp := now }

/-- Database effect of the merged branch of the loop: when not a dry run
and the status is not already completed, completeStream plus a history
event. -/
def mergedEffect (o : ReconOptions) (now : String) (db : DB) (s : Stream) : DB :=
  if o.dryRun = false ∧ s.status ≠ .completed then
    addHistoryEvent (completeStream db s.id now) (statusChangedEvent s .completed now)
  else db

/-- Database effect of the stale branch of the loop: when not a dry run,
auto-archiving is on and the status is not already archived, archive the
stream plus a history event. -/
def staleEffect (o : ReconOptions) (now : String) (db : DB) (s : Stream) : DB :=
  if o.dryRun = false ∧ o.autoArchiveStale = true ∧ s.status ≠ .archived then
    addHistoryEvent (updateStreamStatus db s.id .archived now) (statusChangedEvent s .archived now)
  else db

/-- Database effect of the active branch of the loop: when not a dry run
and the status is none of active, blocked, paused, set it to active plus
a history event. -/
def activeEffect (o : ReconOptions) (now : String) (db : DB) (s : Stream) : DB :=
  if o.dryRun = false ∧ s.status ≠ .active ∧ s.status ≠ .blocked ∧ s.status ≠ .paused then
    addHistoryEvent (updateStreamStatus db s.id .active now) (statusChangedEvent s .active now)
  else db

/-- One iteration of the per-stream loop of reconcileWorktrees
(worktree-reconciliation.ts, the for-loop body). -/
def reconStep (wt : WorktreeMap) (merged : List String) (fs : String → Bool)
    (now : String) (o : ReconOptions) (st : ReconState) (s : Stream) : ReconState :=
  let worktree := lookupWt wt s.id
  let hasWorktree := worktree.isSome || fs s.worktreePath
  let isMerged := merged.contains s.branch
  let matched := if worktree.isSome then st.matched ++ [s.id] else st.matched
  if isMerged then
    { st with completed := st.completed ++ [mkMergedEntry s],
              cCompleted := st.cCompleted + 1, matched := matched,
              db := mergedEffect o now st.db s }
  else if hasWorktree = false then
    { st with stale := st.stale ++ [mkStaleEntry o.autoArchiveStale s],
              cStale := st.cStale + 1, matched := matched,
              db := staleEffect o now st.db s }
  else
    { st with active := st.active ++ [mkActiveEntry s],
              cActive := st.cActive + 1, matched := matched,
              db := activeEffect o now st.db s }

/-- The orphan-detection pass: every worktree whose key was never matched
and which is not the main worktree is pushed, with a counter kept in
lockstep. -/
def orphanPass (wt : WorktreeMap) (matched : List String) : List WorktreeInfo × Nat :=
  wt.foldl (fun acc kv =>
    if !(matched.contains kv.1) && !kv.2.isMain then (acc.1 ++ [kv.2], acc.2 + 1) else acc)
    ([], 0)

/-- The initial loop state of reconcileWorktrees: empty buckets, zero
counters, the main sentinel pre-matched, the database untouched.  The
live worktree mapping, the merged-branch set, the filesystem existence
oracle and the current time are explicit inputs of the run. -/
def reconInit (db : DB) : ReconState :=
  { active := [], completed := [], stale := [],
    cActive := 0, cCompleted := 0, cStale := 0,
    matched := ["main"], db := db }

/-- reconcileWorktrees (worktree-reconciliation.ts): the per-stream loop
from the empty initial state, then the orphan pass and the summary. -/
def reconcileWorktrees (db : DB) (wt : WorktreeMap) (merged : List String)
    (fs : String → Bool) (now : String) (o : ReconOptions) : ReconResult × DB :=
  let streams := getAllStreams db
  let fin := streams.foldl (reconStep wt merged fs now o) (reconInit db)
  let orph := orphanPass wt fin.matched
  ({ active := fin.active, completed := fin.completed, stale := fin.stale,
     orphaned := orph.1, errors := [],
     summary := { totalInDb := streams.length,
                  totalWorktrees := (wt.length : Int) - 1,
                  active := fin.cActive, completed := fin.cCompleted,
                  stale := fin.cStale, orphaned := orph.2, errors := 0 } },
   fin.db)

/-- Look up the streams-table row with a given id. -/
def findStream (db : DB) (sid : String) : Option Stream :=
  db.streams.find? (fun t => t.id == sid)

/-- The history rows belonging to a given stream. -/
def historyFor (db : DB) (sid : String) : List HistoryEvent :=
  db.history.filter (fun e => e.streamId == sid)

/-! ## Git commit scanner (scanners/git-commits.ts)

String processing is embedded over character lists with structural
recursion, mirroring the JS string primitives the source uses
(split with a one-character separator, trim, includes of one
character). -/

/-- JS String.prototype.split with a one-character separator: an empty
string yields one empty field, a trailing separator yields a trailing
empty field. -/
def jsSplitChar (sep : Char) : List Char → List (List Char)
  | [] => [[]]
  | c :: cs =>
    if c == sep then [] :: jsSplitChar sep cs
    else
      match jsSplitChar sep cs with
      | [] => [[c]]
      | g :: gs => (c :: g) :: gs

/-- The ASCII whitespace characters recognised by the JS regex class
and by trim (the astral and non-ASCII space code points JS also accepts
never occur in git output and are omitted). -/
def isJsWs (c : Char) : Bool :=
  c == ' ' || c == '\t' || c == '\n' || c == '\r' || c == '\x0b' || c == '\x0c'

/-- JS String.prototype.trim. -/
def jsTrim (l : List Char) : List Char :=
  ((l.dropWhile isJsWs).reverse.dropWhile isJsWs).reverse

/-- Decimal digit test, the JS regex digit class. -/
def isJsDigit (c : Char) : Bool :=
  48 ≤ c.toNat && c.toNat ≤ 57

/-- Consume one or more characters satisfying p from the front; none when
the first character does not satisfy p. -/
def dropRun1 (p : Char → Bool) : List Char → Option (List Char)
  | [] => none
  | c :: cs => if p c then some (cs.dropWhile p) else none

/-- Consume one literal character from the front. -/
def dropLit (x : Char) : List Char → Option (List Char)
  | [] => none
  | c :: cs => if c == x then some cs else none

/-- Match of the numeric-stat line test: digits, whitespace, digits,
whitespace as a line head (a git numstat line such as added, deleted,
filename).  The two character classes are disjoint so the greedy match
is exact. -/
def matchesNumstat (l : List Char) : Bool :=
  (dropRun1 isJsDigit l |>.bind (dropRun1 isJsWs)
    |>.bind (dropRun1 isJsDigit) |>.bind (dropRun1 isJsWs)).isSome

/-- Match of the binary-placeholder line test: dash, whitespace, dash,
whitespace as a line head. -/
def matchesBinary (l : List Char) : Bool :=
  (dropLit '-' l |>.bind (dropRun1 isJsWs)
    |>.bind (dropLit '-') |>.bind (dropRun1 isJsWs)).isSome

/-- A line counted into the running file total: a numeric-stat line or a
binary-file placeholder line. -/
def isStatLine (l : List Char) : Bool :=
  matchesNumstat l || matchesBinary l

/-- One parsed commit record.  The Date round-trip the source applies to
the timestamp field is abstracted as the trimmed timestamp text; the
autoincrement surrogate id is omitted. -/
structure CommitRec where
  streamId : String
  commitHash : String
  author : String
  timestamp : String
  message : String
  filesChanged : Nat
deriving DecidableEq, Repr

/-- The commit record built from a header line split at the separator
(parts has at least four fields when this is used). -/
def mkHeaderRec (sid : String) (parts : List (List Char)) : CommitRec :=
  { streamId := sid,
    commitHash := ⟨jsTrim (parts.getD 0 [])⟩,
    author := ⟨jsTrim (parts.getD 1 [])⟩,
    timestamp := ⟨jsTrim (parts.getD 2 [])⟩,
    message := ⟨jsTrim (parts.getD 3 [])⟩,
    filesChanged := 0 }

/-- Loop state of the log parser.  In the source the current commit is a
mutable object that is pushed by reference: a line that contains the
separator but splits into fewer than four fields pushes the current
object again without replacing it, and every copy later shows the final
file count assigned to that object.  pushedEarly counts those extra
aliased pushes of the current object. -/
structure ParseState where
  acc : List CommitRec
  cur : Option CommitRec
  pushedEarly : Nat
  fc : Nat
deriving DecidableEq, Repr

/-- All array cells currently holding the live commit object, with the
file count assigned at its last push. -/
def flushCur (st : ParseState) : List CommitRec :=
  match st.cur with
  | none => []
  | some c => List.replicate (st.pushedEarly + 1) { c with filesChanged := st.fc }

/-- One iteration of the parser loop of getWorktreeCommits over one line
of git-log output. -/
def parseStep (sid : String) (st : ParseState) (line : List Char) : ParseState :=
  if line.contains '|' then
    let parts := jsSplitChar '|' line
    if 4 ≤ parts.length then
      { acc := st.acc ++ flushCur st, cur := some (mkHeaderRec sid parts),
        pushedEarly := 0, fc := 0 }
    else
      match st.cur with
      | some _ => { st with pushedEarly := st.pushedEarly + 1 }
      | none => st
  else if isStatLine line then { st with fc := st.fc + 1 }
  else st

/-- The log parser of getWorktreeCommits over the trimmed, line-split
output. -/
def parseGitLogLines (sid : String) (lines : List (List Char)) : List CommitRec :=
  let fin := lines.foldl (parseStep sid) { acc := [], cur := none, pushedEarly := 0, fc := 0 }
  fin.acc ++ flushCur fin

/-- getWorktreeCommits parsing stage on the raw git-log output string:
trim, split on newlines, run the loop. -/
def parseGitLog (sid : String) (output : String) : List CommitRec :=
  parseGitLogLines sid (jsSplitChar '\n' (jsTrim output.data))

/-- Oracle for one scan of one worktree: whether the worktree path
exists, whether the git invocation succeeds, and the raw log output it
produces. -/
structure ScanEnv where
  worktreeOnDisk : Bool
  gitOk : Bool
  gitLog : String
deriving Repr

/-- getWorktreeCommits (scanners/git-commits.ts): empty when the
worktree path is missing or the git invocation throws, otherwise the
parsed log. -/
def getWorktreeCommits (s : Stream) (env : ScanEnv) : List CommitRec :=
  if env.worktreeOnDisk = false then []
  else if env.gitOk = false then []
  else parseGitLog s.id env.gitLog

/-- Error raised by a commit insertion: the uniqueness-constraint
violation (whose SQLite message contains the marker the source tests
for), or any other database error. -/
inductive InsErr where
  | uniqueViolation
  | other (msg : String)
deriving DecidableEq, Repr

/-- The message test error.message.includes of the unique marker. -/
def InsErr.isUnique : InsErr → Bool
  | .uniqueViolation => true
  | .other _ => false

/-- Whether the commits table already holds a row with this key; the
UNIQUE (stream_id, commit_hash) constraint of createTables
(database/client.ts). -/
def hasCommitKey (table : List CommitRec) (c : CommitRec) : Bool :=
  table.any (fun r => r.streamId == c.streamId && r.commitHash == c.commitHash)

/-- insertCommit (database/queries/commits.ts) against the commits table
with its uniqueness constraint. -/
def insertCommit (table : List CommitRec) (c : CommitRec) : Except InsErr (List CommitRec) :=
  if hasCommitKey table c then .error .uniqueViolation else .ok (table ++ [c])

/-- The insertion loop of scanStreamCommits: each commit is inserted,
a uniqueness violation is absorbed, any other error is rethrown. -/
def scanInsertLoop (table : List CommitRec) (cs : List CommitRec) (added : Nat) :
    Except InsErr (Nat × List CommitRec) :=
  match cs with
  | [] => .ok (added, table)
  | c :: rest =>
    match insertCommit table c with
    | .ok t => scanInsertLoop t rest (added + 1)
    | .error e => if e.isUnique then scanInsertLoop table rest added else .error e

/-- scanStreamCommits (scanners/git-commits.ts): find the stream among
the non-main rows, parse its worktree log, insert every commit absorbing
duplicate-key violations; returns the number added and the commits table
after the run. -/
def scanStreamCommits (streams : List Stream) (table : List CommitRec)
    (env : ScanEnv) (sid : String) : Except String (Nat × List CommitRec) :=
  match (streams.filter (fun s => s.id != "main")).find? (fun s => s.id == sid) with
  | none => .error ("Stream not found: " ++ sid)
  | some s =>
    match scanInsertLoop table (getWorktreeCommits s env) 0 with
    | .ok r => .ok r
    | .error .uniqueViolation => .error "UNIQUE constraint failed"
    | .error (.other m) => .error m

/-! ## Retirement service (services/retirement-service.ts) -/

/-- Options of retireStream; hasDb records whether a storage handle was
supplied. -/
structure RetireOptions where
  deleteWorktree : Bool := true
  cleanupPlanFiles : Bool := true
  writeArchive : Bool := true
  queueIntelligentSummary : Bool := true
  hasDb : Bool := true
deriving DecidableEq, Repr

/-- Oracle for the external effects of one retirement run: each fallible
operation either succeeds or throws with a message, and the filesystem
existence checks are fixed booleans. -/
structure RetireEnv where
  archiveWrite : Except String String
  queueJob : Except String Nat
  worktreeOnDisk : Bool
  gitWorktreeRemove : Except String Unit
  manualRemove : Except String Unit
  branchDelete : Except String Unit
  planDirOnDisk : Bool
  planFileOnDisk : Bool
  planRmDir : Except String Unit
  planRmFile : Except String Unit
  planCommitPush : Except String Unit
deriving Repr

/-- RetirementResult. -/
structure RetireResult where
  success : Bool
  streamId : String
  worktreeDeleted : Bool
  archiveWritten : Bool
  planFilesCleanedUp : Bool
  summaryJobQueued : Bool
  errors : List String
deriving DecidableEq, Repr

/-- The worktree removal attempt: the git-native removal, falling back
on failure to the manual directory removal plus prune, whose own failure
propagates to the enclosing catch. -/
def worktreeRemoveRun (env : RetireEnv) : Except String Unit :=
  match env.gitWorktreeRemove with
  | .ok _ => .ok ()
  | .error _ => env.manualRemove

/-- The plan-file cleanup block: remove the planning directory and file
when present, then commit and push when anything was removed; the first
failure aborts the block. -/
def planCleanupRun (env : RetireEnv) : Except String Unit :=
  (if env.planDirOnDisk then env.planRmDir else .ok ()) >>= fun _ =>
  (if env.planFileOnDisk then env.planRmFile else .ok ()) >>= fun _ =>
  (if env.planDirOnDisk || env.planFileOnDisk then env.planCommitPush else .ok ())

/-- retireStream (services/retirement-service.ts): the four best-effort
steps in order, each failure recorded in the errors list without
stopping later steps; success is derived from the errors list at the
end.  The branch-deletion attempt after a successful worktree removal is
swallowed by the source and does not influence the result. -/
def retireStream (sid : String) (o : RetireOptions) (env : RetireEnv) : RetireResult :=
  let archived : Bool × Option String × List String :=
    if o.writeArchive then
      match env.archiveWrite with
      | .ok p => (true, some p, [])
      | .error m => (false, none, ["Archive write failed: " ++ m])
    else (false, none, [])
  let queued : Bool × List String :=
    if o.queueIntelligentSummary && o.hasDb && archived.2.1.isSome then
      match env.queueJob with
      | .ok _ => (true, [])
      | .error m => (false, ["Failed to queue summary job: " ++ m])
    else (false, [])
  let wtStep : Bool × List String :=
    if o.deleteWorktree && env.worktreeOnDisk then
      match worktreeRemoveRun env with
      | .ok _ => (true, [])
      | .error m => (false, ["Worktree deletion failed: " ++ m])
    else if env.worktreeOnDisk = false then (true, [])
    else (false, [])
  let planStep : Bool × List String :=
    if o.cleanupPlanFiles then
      match planCleanupRun env with
      | .ok _ => (true, [])
      | .error m => (false, ["Plan files cleanup failed: " ++ m])
    else (false, [])
  let errors := archived.2.2 ++ queued.2 ++ wtStep.2 ++ planStep.2
  { success := errors.isEmpty, streamId := sid,
    worktreeDeleted := wtStep.1, archiveWritten := archived.1,
    planFilesCleanedUp := planStep.1, summaryJobQueued := queued.1,
    errors := errors }

/-! ## Characterization lemmas for the reconciliation loop -/

/-- The condition under which a stream enters the active or stale branch:
a live worktree was found in the mapping or on disk. -/
def hasLiveWorktree (wt : WorktreeMap) (fs : String → Bool) (s : Stream) : Bool :=
  (lookupWt wt s.id).isSome || fs s.worktreePath

/-- A stream takes the stale branch: branch unmerged, no worktree. -/
def staleCase (wt : WorktreeMap) (merged : List String) (fs : String → Bool) (s : Stream) : Bool :=
  !(merged.contains s.branch) && !(hasLiveWorktree wt fs s)

/-- A stream takes the active branch: branch unmerged, worktree present. -/
def activeCase (wt : WorktreeMap) (merged : List String) (fs : String → Bool) (s : Stream) : Bool :=
  !(merged.contains s.branch) && hasLiveWorktree wt fs s

/-- The simplified orphan condition: a worktree pair is reported
orphaned exactly when its key is not the main sentinel, matches no
persisted non-main stream id, and its info is not tagged main. -/
def orphanCond (db : DB) (kv : String × WorktreeInfo) : Bool :=
  !(kv.1 == "main") && !(((getAllStreams db).map (fun t => t.id)).contains kv.1)
    && !kv.2.isMain

/-- A well-formed git-log output at the line level: every line that
contains the field separator is a commit header line splitting into at
least four fields. -/
def wfGitLogLines (lines : List (List Char)) : Prop :=
  ∀ l ∈ lines, l.contains '|' = true → 4 ≤ (jsSplitChar '|' l).length

/-- Modelled from the spec wording of the parser, for comparison with
the embedded loop: after a header was seen, accumulate the file count
over the following stat lines and emit one record at the next header or
at the end. -/
def specParseAux (sid : String) (c : CommitRec) (fc : Nat) :
    List (List Char) → List CommitRec
  | [] => [{ c with filesChanged := fc }]
  | l :: ls =>
    if l.contains '|' then
      { c with filesChanged := fc }
        :: specParseAux sid (mkHeaderRec sid (jsSplitChar '|' l)) 0 ls
    else specParseAux sid c (fc + (if isStatLine l then 1 else 0)) ls

/-- Modelled from the spec wording of the parser: one record per commit
header line, each counting the stat lines that follow it up to the next
header. -/
def specParse (sid : String) : List (List Char) → List CommitRec
  | [] => []
  | l :: ls =>
    if l.contains '|' then specParseAux sid (mkHeaderRec sid (jsSplitChar '|' l)) 0 ls
    else specParse sid ls

theorem reconStep_completed (wt : WorktreeMap) (merged : List String) (fs : String → Bool)
    (now : String) (o : ReconOptions) (st : ReconState) (s : Stream) :
    (reconStep wt merged fs now o st s).completed
      = st.completed ++ (if merged.contains s.branch then [mkMergedEntry s] else []) := by
  simp only [reconStep]
  cases hL : lookupWt wt s.id <;>
    by_cases hf : fs s.worktreePath = true <;>
    by_cases hm : merged.contains s.branch = true <;>
    simp_all

theorem reconStep_stale (wt : WorktreeMap) (merged : List String) (fs : String → Bool)
    (now : String) (o : ReconOptions) (st : ReconState) (s : Stream) :
    (reconStep wt merged fs now o st s).stale
      = st.stale ++ (if staleCase wt merged fs s then [mkStaleEntry o.autoArchiveStale s] else []) := by
  simp only [reconStep]
  cases hL : lookupWt wt s.id <;>
    by_cases hf : fs s.worktreePath = true <;>
    by_cases hm : merged.contains s.branch = true <;>
    simp_all [staleCase, hasLiveWorktree]

theorem reconStep_active (wt : WorktreeMap) (merged : List String) (fs : String → Bool)
    (now : String) (o : ReconOptions) (st : ReconState) (s : Stream) :
    (reconStep wt merged fs now o st s).active
      = st.active ++ (if activeCase wt merged fs s then [mkActiveEntry s] else []) := by
  simp only [reconStep]
  cases hL : lookupWt wt s.id <;>
    by_cases hf : fs s.worktreePath = true <;>
    by_cases hm : merged.contains s.branch = true <;>
    simp_all [activeCase, hasLiveWorktree]

theorem reconStep_cCompleted (wt : WorktreeMap) (merged : List String) (fs : String → Bool)
    (now : String) (o : ReconOptions) (st : ReconState) (s : Stream) :
    (reconStep wt merged fs now o st s).cCompleted
      = st.cCompleted + (if merged.contains s.branch then 1 else 0) := by
  simp only [reconStep]
  cases hL : lookupWt wt s.id <;>
    by_cases hf : fs s.worktreePath = true <;>
    by_cases hm : merged.contains s.branch = true <;>
    simp_all

theorem reconStep_cStale (wt : WorktreeMap) (merged : List String) (fs : String → Bool)
    (now : String) (o : ReconOptions) (st : ReconState) (s : Stream) :
    (reconStep wt merged fs now o st s).cStale
      = st.cStale + (if staleCase wt merged fs s then 1 else 0) := by
  simp only [reconStep]
  cases hL : lookupWt wt s.id <;>
    by_cases hf : fs s.worktreePath = true <;>
    by_cases hm : merged.contains s.branch = true <;>
    simp_all [staleCase, hasLiveWorktree]

theorem reconStep_cActive (wt : WorktreeMap) (merged : List String) (fs : String → Bool)
    (now : String) (o : ReconOptions) (st : ReconState) (s : Stream) :
    (reconStep wt merged fs now o st s).cActive
      = st.cActive + (if activeCase wt merged fs s then 1 else 0) := by
  simp only [reconStep]
  cases hL : lookupWt wt s.id <;>
    by_cases hf : fs s.worktreePath = true <;>
    by_cases hm : merged.contains s.branch = true <;>
    simp_all [activeCase, hasLiveWorktree]

theorem reconStep_matched (wt : WorktreeMap) (merged : List String) (fs : String → Bool)
    (now : String) (o : ReconOptions) (st : ReconState) (s : Stream) :
    (reconStep wt merged fs now o st s).matched
      = st.matched ++ (if (lookupWt wt s.id).isSome then [s.id] else []) := by
  simp only [reconStep]
  cases hL : lookupWt wt s.id <;>
    by_cases hf : fs s.worktreePath = true <;>
    by_cases hm : merged.contains s.branch = true <;>
    simp_all

theorem reconStep_db_dry (wt : WorktreeMap) (merged : List String) (fs : String → Bool)
    (now : String) (o : ReconOptions) (st : ReconState) (s : Stream) (h : o.dryRun = true) :
    (reconStep wt merged fs now o st s).db = st.db := by
  simp only [reconStep, mergedEffect, staleEffect, activeEffect, h]
  cases hL : lookupWt wt s.id <;>
    by_cases hf : fs s.worktreePath = true <;>
    by_cases hm : merged.contains s.branch = true <;>
    simp_all

theorem reconFold_completed (wt : WorktreeMap) (merged : List String) (fs : String → Bool)
    (now : String) (o : ReconOptions) (ss : List Stream) (st : ReconState) :
    (ss.foldl (reconStep wt merged fs now o) st).completed
      = st.completed ++ (ss.filter (fun s => merged.contains s.branch)).map mkMergedEntry := by
  induction ss generalizing st with
  | nil => simp
  | cons s ss ih =>
    rw [List.foldl_cons, ih, reconStep_completed, List.filter_cons]
    by_cases hm : merged.contains s.branch = true <;> simp_all

theorem reconFold_stale (wt : WorktreeMap) (merged : List String) (fs : String → Bool)
    (now : String) (o : ReconOptions) (ss : List Stream) (st : ReconState) :
    (ss.foldl (reconStep wt merged fs now o) st).stale
      = st.stale ++ (ss.filter (staleCase wt merged fs)).map (mkStaleEntry o.autoArchiveStale) := by
  induction ss generalizing st with
  | nil => simp
  | cons s ss ih =>
    rw [List.foldl_cons, ih, reconStep_stale, List.filter_cons]
    by_cases hm : staleCase wt merged fs s = true <;> simp_all

theorem reconFold_active (wt : WorktreeMap) (merged : List String) (fs : String → Bool)
    (now : String) (o : ReconOptions) (ss : List Stream) (st : ReconState) :
    (ss.foldl (reconStep wt merged fs now o) st).active
      = st.active ++ (ss.filter (activeCase wt merged fs)).map mkActiveEntry := by
  induction ss generalizing st with
  | nil => simp
  | cons s ss ih =>
    rw [List.foldl_cons, ih, reconStep_active, List.filter_cons]
    by_cases hm : activeCase wt merged fs s = true <;> simp_all

theorem reconFold_cCompleted (wt : WorktreeMap) (merged : List String) (fs : String → Bool)
    (now : String) (o : ReconOptions) (ss : List Stream) (st : ReconState) :
    (ss.foldl (reconStep wt merged fs now o) st).cCompleted
      = st.cCompleted + (ss.filter (fun s => merged.contains s.branch)).length := by
  induction ss generalizing st with
  | nil => simp
  | cons s ss ih =>
    rw [List.foldl_cons, ih, reconStep_cCompleted, List.filter_cons]
    by_cases hm : merged.contains s.branch = true <;> simp_all <;> omega

theorem reconFold_cStale (wt : WorktreeMap) (merged : List String) (fs : String → Bool)
    (now : String) (o : ReconOptions) (ss : List Stream) (st : ReconState) :
    (ss.foldl (reconStep wt merged fs now o) st).cStale
      = st.cStale + (ss.filter (staleCase wt merged fs)).length := by
  induction ss generalizing st with
  | nil => simp
  | cons s ss ih =>
    rw [List.foldl_cons, ih, reconStep_cStale, List.filter_cons]
    by_cases hm : staleCase wt merged fs s = true <;> simp_all <;> omega

theorem reconFold_cActive (wt : WorktreeMap) (merged : List String) (fs : String → Bool)
    (now : String) (o : ReconOptions) (ss : List Stream) (st : ReconState) :
    (ss.foldl (reconStep wt merged fs now o) st).cActive
      = st.cActive + (ss.filter (activeCase wt merged fs)).length := by
  induction ss generalizing st with
  | nil => simp
  | cons s ss ih =>
    rw [List.foldl_cons, ih, reconStep_cActive, List.filter_cons]
    by_cases hm : activeCase wt merged fs s = true <;> simp_all <;> omega

theorem reconFold_matched (wt : WorktreeMap) (merged : List String) (fs : String → Bool)
    (now : String) (o : ReconOptions) (ss : List Stream) (st : ReconState) :
    (ss.foldl (reconStep wt merged fs now o) st).matched
      = st.matched ++ (ss.filter (fun s => (lookupWt wt s.id).isSome)).map (fun s => s.id) := by
  induction ss generalizing st with
  | nil => simp
  | cons s ss ih =>
    rw [List.foldl_cons, ih, reconStep_matched, List.filter_cons]
    by_cases hm : (lookupWt wt s.id).isSome = true <;> simp_all

theorem reconFold_db_dry (wt : WorktreeMap) (merged : List String) (fs : String → Bool)
    (now : String) (o : ReconOptions) (ss : List Stream) (st : ReconState) (h : o.dryRun = true) :
    (ss.foldl (reconStep wt merged fs now o) st).db = st.db := by
  induction ss generalizing st with
  | nil => rfl
  | cons s ss ih => rw [List.foldl_cons, ih, reconStep_db_dry wt merged fs now o st s h]

theorem orphanPass_go (wt : WorktreeMap) (matched : List String)
    (acc : List WorktreeInfo × Nat) :
    wt.foldl (fun acc kv =>
        if !(matched.contains kv.1) && !kv.2.isMain then (acc.1 ++ [kv.2], acc.2 + 1) else acc) acc
      = (acc.1 ++ (wt.filter (fun kv => !(matched.contains kv.1) && !kv.2.isMain)).map Prod.snd,
         acc.2 + (wt.filter (fun kv => !(matched.contains kv.1) && !kv.2.isMain)).length) := by
  induction wt generalizing acc with
  | nil => simp
  | cons kv wt ih =>
    rw [List.foldl_cons, List.filter_cons]
    cases hk : (!(matched.contains kv.1) && !kv.2.isMain)
    · simp_all
    · simp_all [Prod.ext_iff]
      omega

theorem orphanPass_eq (wt : WorktreeMap) (matched : List String) :
    orphanPass wt matched
      = ((wt.filter (fun kv => !(matched.contains kv.1) && !kv.2.isMain)).map Prod.snd,
         (wt.filter (fun kv => !(matched.contains kv.1) && !kv.2.isMain)).length) := by
  have h := orphanPass_go wt matched ([], 0)
  simpa [orphanPass] using h

/-! ## Preservation lemmas for the per-stream database effects -/

theorem find?_map_idpres (f : Stream → Stream) (hf : ∀ v, (f v).id = v.id)
    (l : List Stream) (sid : String) :
    (l.map f).find? (fun v => v.id == sid) = (l.find? (fun v => v.id == sid)).map f := by
  induction l with
  | nil => simp
  | cons v l ih =>
    cases hv : (v.id == sid)
    · rw [List.map_cons, List.find?_cons_of_neg _ (by rw [hf v]; simp [hv]),
        List.find?_cons_of_neg _ (by simp [hv]), ih]
    · rw [List.map_cons, List.find?_cons_of_pos _ (by rw [hf v]; simp [hv]),
        List.find?_cons_of_pos _ (by simp [hv]), Option.map_some']

theorem find?_id_map_cond_other (l : List Stream) (tid sid : String) (g : Stream → Stream)
    (hg : ∀ v, (g v).id = v.id) (h : tid ≠ sid) :
    (l.map (fun s => if s.id == tid then g s else s)).find? (fun v => v.id == sid)
      = l.find? (fun v => v.id == sid) := by
  rw [find?_map_idpres (fun s => if s.id == tid then g s else s)
    (fun v => by by_cases hc : v.id == tid <;> simp [hc, hg])]
  cases hfind : l.find? (fun v => v.id == sid) with
  | none => rfl
  | some e =>
    have hp := List.find?_some hfind
    have hes : e.id = sid := by simpa using hp
    simp only [Option.map_some']
    congr 1
    rw [if_neg (by simp [hes]; exact fun hc => h hc.symm)]

theorem find?_id_map_cond_self (l : List Stream) (sid : String) (g : Stream → Stream)
    (hg : ∀ v, (g v).id = v.id) :
    (l.map (fun s => if s.id == sid then g s else s)).find? (fun v => v.id == sid)
      = (l.find? (fun v => v.id == sid)).map g := by
  rw [find?_map_idpres (fun s => if s.id == sid then g s else s)
    (fun v => by by_cases hc : v.id == sid <;> simp [hc, hg])]
  cases hfind : l.find? (fun v => v.id == sid)
  · rfl
  · have hp := List.find?_some hfind
    simp only [Option.map_some']
    congr 1
    rw [if_pos hp]

theorem findStream_updateStreamStatus_other (db : DB) (tid sid : String)
    (st : StreamStatus) (now : String) (h : tid ≠ sid) :
    findStream (updateStreamStatus db tid st now) sid = findStream db sid := by
  simp only [findStream, updateStreamStatus]
  exact find?_id_map_cond_other db.streams tid sid _ (fun v => rfl) h

theorem findStream_completeStream_other (db : DB) (tid sid : String)
    (now : String) (h : tid ≠ sid) :
    findStream (completeStream db tid now) sid = findStream db sid := by
  simp only [findStream, completeStream]
  exact find?_id_map_cond_other db.streams tid sid _ (fun v => rfl) h

theorem findStream_completeStream_self (db : DB) (sid : String) (now : String) :
    findStream (completeStream db sid now) sid
      = (findStream db sid).map
          (fun v => { v with status := .completed, completedAt := some now, updatedAt := now }) := by
  simp only [findStream, completeStream]
  exact find?_id_map_cond_self db.streams sid _ (fun v => rfl)

theorem findStream_addHistoryEvent (db : DB) (e : HistoryEvent) (sid : String) :
    findStream (addHistoryEvent db e) sid = findStream db sid := rfl

theorem historyFor_addHistoryEvent (db : DB) (e : HistoryEvent) (sid : String) :
    historyFor (addHistoryEvent db e) sid
      = historyFor db sid ++ (if e.streamId == sid then [e] else []) := by
  simp only [historyFor, addHistoryEvent, List.filter_append]
  cases he : (e.streamId == sid) <;> simp [he]

theorem historyFor_updateStreamStatus (db : DB) (tid : String) (st : StreamStatus)
    (now : String) (sid : String) :
    historyFor (updateStreamStatus db tid st now) sid = historyFor db sid := rfl

theorem historyFor_completeStream (db : DB) (tid : String) (now : String) (sid : String) :
    historyFor (completeStream db tid now) sid = historyFor db sid := rfl

theorem mergedEffect_findStream_other (o : ReconOptions) (now : String) (db : DB)
    (s : Stream) (sid : String) (h : s.id ≠ sid) :
    findStream (mergedEffect o now db s) sid = findStream db sid := by
  unfold mergedEffect
  split
  · rw [findStream_addHistoryEvent, findStream_completeStream_other _ _ _ _ h]
  · rfl

theorem staleEffect_findStream_other (o : ReconOptions) (now : String) (db : DB)
    (s : Stream) (sid : String) (h : s.id ≠ sid) :
    findStream (staleEffect o now db s) sid = findStream db sid := by
  unfold staleEffect
  split
  · rw [findStream_addHistoryEvent, findStream_updateStreamStatus_other _ _ _ _ _ h]
  · rfl

theorem activeEffect_findStream_other (o : ReconOptions) (now : String) (db : DB)
    (s : Stream) (sid : String) (h : s.id ≠ sid) :
    findStream (activeEffect o now db s) sid = findStream db sid := by
  unfold activeEffect
  split
  · rw [findStream_addHistoryEvent, findStream_updateStreamStatus_other _ _ _ _ _ h]
  · rfl

theorem mergedEffect_historyFor_other (o : ReconOptions) (now : String) (db : DB)
    (s : Stream) (sid : String) (h : s.id ≠ sid) :
    historyFor (mergedEffect o now db s) sid = historyFor db sid := by
  unfold mergedEffect
  split
  · rw [historyFor_addHistoryEvent, historyFor_completeStream]
    simp [statusChangedEvent, h]
  · rfl

theorem staleEffect_historyFor_other (o : ReconOptions) (now : String) (db : DB)
    (s : Stream) (sid : String) (h : s.id ≠ sid) :
    historyFor (staleEffect o now db s) sid = historyFor db sid := by
  unfold staleEffect
  split
  · rw [historyFor_addHistoryEvent, historyFor_updateStreamStatus]
    simp [statusChangedEvent, h]
  · rfl

theorem activeEffect_historyFor_other (o : ReconOptions) (now : String) (db : DB)
    (s : Stream) (sid : String) (h : s.id ≠ sid) :
    historyFor (activeEffect o now db s) sid = historyFor db sid := by
  unfold activeEffect
  split
  · rw [historyFor_addHistoryEvent, historyFor_updateStreamStatus]
    simp [statusChangedEvent, h]
  · rfl

theorem reconStep_db_cases (wt : WorktreeMap) (merged : List String) (fs : String → Bool)
    (now : String) (o : ReconOptions) (st : ReconState) (s : Stream) :
    (reconStep wt merged fs now o st s).db = mergedEffect o now st.db s
      ∨ (reconStep wt merged fs now o st s).db = staleEffect o now st.db s
      ∨ (reconStep wt merged fs now o st s).db = activeEffect o now st.db s := by
  simp only [reconStep]
  split
  · exact Or.inl rfl
  · split
    · exact Or.inr (Or.inl rfl)
    · exact Or.inr (Or.inr rfl)

theorem reconStep_db_findStream_other (wt : WorktreeMap) (merged : List String)
    (fs : String → Bool) (now : String) (o : ReconOptions) (st : ReconState)
    (s : Stream) (sid : String) (h : s.id ≠ sid) :
    findStream (reconStep wt merged fs now o st s).db sid = findStream st.db sid := by
  rcases reconStep_db_cases wt merged fs now o st s with hc | hc | hc <;> rw [hc]
  · exact mergedEffect_findStream_other _ _ _ _ _ h
  · exact staleEffect_findStream_other _ _ _ _ _ h
  · exact activeEffect_findStream_other _ _ _ _ _ h

theorem reconStep_db_historyFor_other (wt : WorktreeMap) (merged : List String)
    (fs : String → Bool) (now : String) (o : ReconOptions) (st : ReconState)
    (s : Stream) (sid : String) (h : s.id ≠ sid) :
    historyFor (reconStep wt merged fs now o st s).db sid = historyFor st.db sid := by
  rcases reconStep_db_cases wt merged fs now o st s with hc | hc | hc <;> rw [hc]
  · exact mergedEffect_historyFor_other _ _ _ _ _ h
  · exact staleEffect_historyFor_other _ _ _ _ _ h
  · exact activeEffect_historyFor_other _ _ _ _ _ h

theorem reconFold_db_findStream_other (wt : WorktreeMap) (merged : List String)
    (fs : String → Bool) (now : String) (o : ReconOptions) (ss : List Stream)
    (st : ReconState) (sid : String) (h : ∀ t ∈ ss, t.id ≠ sid) :
    findStream (ss.foldl (reconStep wt merged fs now o) st).db sid = findStream st.db sid := by
  induction ss generalizing st with
  | nil => rfl
  | cons s ss ih =>
    rw [List.foldl_cons, ih _ (fun t ht => h t (List.mem_cons_of_mem _ ht)),
      reconStep_db_findStream_other _ _ _ _ _ _ _ _ (h s (List.mem_cons_self _ _))]

theorem reconFold_db_historyFor_other (wt : WorktreeMap) (merged : List String)
    (fs : String → Bool) (now : String) (o : ReconOptions) (ss : List Stream)
    (st : ReconState) (sid : String) (h : ∀ t ∈ ss, t.id ≠ sid) :
    historyFor (ss.foldl (reconStep wt merged fs now o) st).db sid = historyFor st.db sid := by
  induction ss generalizing st with
  | nil => rfl
  | cons s ss ih =>
    rw [List.foldl_cons, ih _ (fun t ht => h t (List.mem_cons_of_mem _ ht)),
      reconStep_db_historyFor_other _ _ _ _ _ _ _ _ (h s (List.mem_cons_self _ _))]

theorem reconStep_db_merged (wt : WorktreeMap) (merged : List String) (fs : String → Bool)
    (now : String) (o : ReconOptions) (st : ReconState) (s : Stream)
    (hm : merged.contains s.branch = true) :
    (reconStep wt merged fs now o st s).db = mergedEffect o now st.db s := by
  simp only [reconStep]
  rw [if_pos hm]

theorem reconStep_db_stale (wt : WorktreeMap) (merged : List String) (fs : String → Bool)
    (now : String) (o : ReconOptions) (st : ReconState) (s : Stream)
    (hm : merged.contains s.branch = false)
    (hw : ((lookupWt wt s.id).isSome || fs s.worktreePath) = false) :
    (reconStep wt merged fs now o st s).db = staleEffect o now st.db s := by
  simp only [reconStep]
  rw [if_neg (by simpa using hm), if_pos hw]

/-! ## Nodup and lookup helpers -/

theorem find?_id_of_mem_nodup (l : List Stream) (s : Stream)
    (hnd : (l.map (fun t => t.id)).Nodup) (hm : s ∈ l) :
    l.find? (fun t => t.id == s.id) = some s := by
  induction l with
  | nil => cases hm
  | cons u l ih =>
    rw [List.map_cons, List.nodup_cons] at hnd
    rcases List.mem_cons.mp hm with rfl | hm2
    · rw [List.find?_cons_of_pos _ (by simp)]
    · have hne : u.id ≠ s.id := fun he => hnd.1 (he ▸ List.mem_map_of_mem _ hm2)
      rw [List.find?_cons_of_neg _ (by simp [hne])]
      exact ih hnd.2 hm2

theorem findStream_of_mem_nodup (db : DB) (s : Stream)
    (hnd : (db.streams.map (fun t => t.id)).Nodup) (hm : s ∈ db.streams) :
    findStream db s.id = some s :=
  find?_id_of_mem_nodup db.streams s hnd hm

theorem getAllStreams_ids_nodup (db : DB)
    (hnd : (db.streams.map (fun t => t.id)).Nodup) :
    ((getAllStreams db).map (fun t => t.id)).Nodup :=
  List.Nodup.sublist ((List.filter_sublist _).map _) hnd

theorem mem_split_ids (l : List Stream) (s : Stream) (hm : s ∈ l)
    (hnd : (l.map (fun t => t.id)).Nodup) :
    ∃ l1 l2, l = l1 ++ s :: l2
      ∧ (∀ t ∈ l1, t.id ≠ s.id) ∧ (∀ t ∈ l2, t.id ≠ s.id) := by
  obtain ⟨l1, l2, rfl⟩ := List.append_of_mem hm
  rw [List.map_append, List.map_cons] at hnd
  rcases List.nodup_append.mp hnd with ⟨h1, h2, hdisj⟩
  refine ⟨l1, l2, rfl, ?_, ?_⟩
  · intro t ht he
    exact List.disjoint_left.mp hdisj (List.mem_map_of_mem _ ht)
      (he ▸ List.mem_cons_self _ _)
  · intro t ht he
    exact (List.nodup_cons.mp h2).1 (he ▸ List.mem_map_of_mem _ ht)

theorem reconInit_db (db : DB) : (reconInit db).db = db := rfl

/-! ## Claim theorems for the reconciliation engine -/

/-- C1: for every fixed input (persisted stream set, live worktree
mapping, merged-branches set) and every autoArchiveStale setting,
reconcileWorktrees with dryRun true returns the same classification
buckets and summary counts as the call with dryRun false, and the
dryRun true call performs no persisted mutation at all: the database
(streams and history) it returns is the input database. -/
theorem reconcile_dryRun_equivalence (db : DB) (wt : WorktreeMap)
    (merged : List String) (fs : String → Bool) (now : String) (a aa : Bool) :
    (reconcileWorktrees db wt merged fs now ⟨true, a, aa⟩).1
      = (reconcileWorktrees db wt merged fs now ⟨false, a, aa⟩).1
    ∧ (reconcileWorktrees db wt merged fs now ⟨true, a, aa⟩).2 = db := by
  constructor
  · simp only [reconcileWorktrees, reconFold_active, reconFold_completed, reconFold_stale,
      reconFold_cActive, reconFold_cCompleted, reconFold_cStale, reconFold_matched,
      orphanPass_eq]
  · simp only [reconcileWorktrees]
    exact reconFold_db_dry wt merged fs now ⟨true, a, aa⟩ (getAllStreams db) (reconInit db) rfl

/-- C5 counterexample: on the empty worktree mapping (the mapping the
engine receives when the git invocation fails) the summary field
totalWorktrees is -1, not 0 as the claim states, because the source
computes worktrees.size - 1 unconditionally. -/
theorem summary_totalWorktrees_empty_cex :
    (reconcileWorktrees ⟨[], []⟩ [] [] (fun _ => false) "now"
        ⟨true, false, false⟩).1.summary.totalWorktrees = -1
    ∧ ¬ ((reconcileWorktrees ⟨[], []⟩ [] [] (fun _ => false) "now"
        ⟨true, false, false⟩).1.summary.totalWorktrees = 0) := by
  decide

/-- C5 (amended): for every input, summary.totalWorktrees equals the
size of the live worktree mapping minus one; this matches the count
excluding main only when the mapping holds a main entry, and is -1 on
the empty mapping. -/
theorem summary_totalWorktrees_eq_size_minus_one (db : DB) (wt : WorktreeMap)
    (merged : List String) (fs : String → Bool) (now : String) (o : ReconOptions) :
    (reconcileWorktrees db wt merged fs now o).1.summary.totalWorktrees
      = (wt.length : Int) - 1 := rfl

/-- C2 counterexample: a persisted stream in archived status whose
branch is in the merged-branches set is moved to completed status by a
dryRun false run, so the reconciler does resurrect archived streams. -/
theorem reconcile_archived_resurrected_cex :
    (reconcileWorktrees ⟨[⟨"s1", "t", "feature", "w1", .archived, none, "u"⟩], []⟩
        [] ["feature"] (fun _ => false) "now" ⟨false, false, false⟩).2.streams
      = [⟨"s1", "t", "feature", "w1", .completed, some "now", "now"⟩] := by
  decide

/-- C2 (amended): an archived stream keeps its archived persisted
status whenever the run is a dry run, or whenever its branch is
unmerged and its worktree is found neither in the mapping nor on disk
(the stale path never un-archives an archived stream); with dryRun
false an archived stream is re-statused only by the merged path (to
completed) or the live-worktree path (to active). -/
theorem reconcile_archived_preserved (db : DB) (wt : WorktreeMap) (merged : List String)
    (fs : String → Bool) (now : String) (o : ReconOptions) (s : Stream)
    (hnd : (db.streams.map (fun t => t.id)).Nodup)
    (hmem : s ∈ db.streams) (hst : s.status = .archived)
    (hcond : o.dryRun = true
      ∨ (merged.contains s.branch = false ∧ lookupWt wt s.id = none
          ∧ fs s.worktreePath = false)) :
    findStream (reconcileWorktrees db wt merged fs now o).2 s.id = some s := by
  have hfind : findStream db s.id = some s := findStream_of_mem_nodup db s hnd hmem
  rcases hcond with hdry | ⟨hm, hl, hf⟩
  · simp only [reconcileWorktrees]
    rw [reconFold_db_dry wt merged fs now o (getAllStreams db) (reconInit db) hdry]
    exact hfind
  · by_cases hmain : s.id = "main"
    · simp only [reconcileWorktrees]
      rw [reconFold_db_findStream_other wt merged fs now o (getAllStreams db)
        (reconInit db) s.id ?hother]
      · exact hfind
      case hother =>
        intro t ht he
        have hne : t.id ≠ "main" := by
          have hmf := List.mem_filter.mp ht
          simpa using hmf.2
        exact hne (he.trans hmain)
    · have hs : s ∈ getAllStreams db :=
        List.mem_filter.mpr ⟨hmem, by simpa using hmain⟩
      obtain ⟨l1, l2, hsplit, h1, h2⟩ :=
        mem_split_ids (getAllStreams db) s hs (getAllStreams_ids_nodup db hnd)
      simp only [reconcileWorktrees]
      rw [hsplit, List.foldl_append, List.foldl_cons]
      rw [reconFold_db_findStream_other wt merged fs now o l2 _ s.id (fun t ht => h2 t ht)]
      rw [reconStep_db_stale wt merged fs now o _ s hm (by rw [hl]; simpa using hf)]
      rw [show staleEffect o now
            ((List.foldl (reconStep wt merged fs now o) (reconInit db) l1)).db s
          = ((List.foldl (reconStep wt merged fs now o) (reconInit db) l1)).db from by
        unfold staleEffect
        rw [if_neg]
        rintro ⟨-, -, hne⟩
        exact hne hst]
      rw [reconFold_db_findStream_other wt merged fs now o l1 (reconInit db) s.id
        (fun t ht => h1 t ht)]
      rw [reconInit_db]
      exact hfind

/-- C2 witness: a concrete archived stream with unmerged branch and no
worktree keeps its archived status across a dryRun false run. -/
theorem reconcile_archived_preserved_witness :
    findStream (reconcileWorktrees ⟨[⟨"s2", "t", "b", "w", .archived, none, "u"⟩], []⟩
        [] [] (fun _ => false) "now" ⟨false, false, false⟩).2 "s2"
      = some ⟨"s2", "t", "b", "w", .archived, none, "u"⟩ :=
  reconcile_archived_preserved ⟨[⟨"s2", "t", "b", "w", .archived, none, "u"⟩], []⟩
    [] [] (fun _ => false) "now" ⟨false, false, false⟩
    ⟨"s2", "t", "b", "w", .archived, none, "u"⟩
    (by decide) (by decide) rfl (Or.inr ⟨rfl, rfl, rfl⟩)

/-- C3 counterexample: the completed-bucket entry of a merged stream
carries the reason text with a capital B, "Branch merged to main", and
no entry carries the claimed reason "branch merged to main". -/
theorem merged_reason_capitalization_cex :
    (reconcileWorktrees ⟨[⟨"s1", "t", "feature", "w1", .active, none, "u"⟩], []⟩
        [] ["feature"] (fun _ => false) "now" ⟨true, false, false⟩).1.completed
      = [{ streamId := "s1", title := "t", branch := "feature", worktreePath := "w1",
           previousStatus := .active, newStatus := some .completed,
           reason := "Branch merged to main" }]
    ∧ ∀ e ∈ (reconcileWorktrees ⟨[⟨"s1", "t", "feature", "w1", .active, none, "u"⟩], []⟩
        [] ["feature"] (fun _ => false) "now" ⟨true, false, false⟩).1.completed,
        e.reason ≠ "branch merged to main" := by
  decide

/-- C3 (amended): every persisted stream whose branch is in the
merged-branches set is placed in the completed bucket with newStatus
completed and reason "Branch merged to main" (capital B), even when its
worktree still exists; and if dryRun is false and the status is not
already completed, the persisted row is set to completed with
completedAt stamped and a status_changed history event recording the
old and new status is appended. -/
theorem merged_stream_classification (db : DB) (wt : WorktreeMap) (merged : List String)
    (fs : String → Bool) (now : String) (o : ReconOptions) (s : Stream)
    (hnd : (db.streams.map (fun t => t.id)).Nodup)
    (hs : s ∈ getAllStreams db)
    (hm : merged.contains s.branch = true) :
    ({ streamId := s.id, title := s.title, branch := s.branch,
       worktreePath := s.worktreePath, previousStatus := s.status,
       newStatus := some .completed, reason := "Branch merged to main" } : ReconEntry)
        ∈ (reconcileWorktrees db wt merged fs now o).1.completed
    ∧ (o.dryRun = false → s.status ≠ .completed →
        findStream (reconcileWorktrees db wt merged fs now o).2 s.id
          = some { s with status := .completed, completedAt := some now, updatedAt := now }
        ∧ historyFor (reconcileWorktrees db wt merged fs now o).2 s.id
          = historyFor db s.id ++ [statusChangedEvent s .completed now]) := by
  constructor
  · have hbucket : (reconcileWorktrees db wt merged fs now o).1.completed
        = ((getAllStreams db).filter (fun t => merged.contains t.branch)).map mkMergedEntry := by
      simp only [reconcileWorktrees, reconFold_completed, reconInit]
      simp
    rw [hbucket]
    exact List.mem_map_of_mem _ (List.mem_filter.mpr ⟨hs, hm⟩)
  · intro hdr hst
    obtain ⟨l1, l2, hsplit, h1, h2⟩ :=
      mem_split_ids (getAllStreams db) s hs (getAllStreams_ids_nodup db hnd)
    have hfind : findStream db s.id = some s :=
      findStream_of_mem_nodup db s hnd (List.mem_filter.mp hs).1
    have heff : mergedEffect o now
          ((List.foldl (reconStep wt merged fs now o) (reconInit db) l1)).db s
        = addHistoryEvent (completeStream
            ((List.foldl (reconStep wt merged fs now o) (reconInit db) l1)).db s.id now)
            (statusChangedEvent s .completed now) := by
      unfold mergedEffect
      rw [if_pos ⟨hdr, hst⟩]
    constructor
    · simp only [reconcileWorktrees]
      rw [hsplit, List.foldl_append, List.foldl_cons]
      rw [reconFold_db_findStream_other wt merged fs now o l2 _ s.id (fun t ht => h2 t ht)]
      rw [reconStep_db_merged wt merged fs now o _ s hm, heff]
      rw [findStream_addHistoryEvent, findStream_completeStream_self]
      rw [reconFold_db_findStream_other wt merged fs now o l1 (reconInit db) s.id
        (fun t ht => h1 t ht)]
      rw [reconInit_db, hfind, Option.map_some']
    · simp only [reconcileWorktrees]
      rw [hsplit, List.foldl_append, List.foldl_cons]
      rw [reconFold_db_historyFor_other wt merged fs now o l2 _ s.id (fun t ht => h2 t ht)]
      rw [reconStep_db_merged wt merged fs now o _ s hm, heff]
      rw [historyFor_addHistoryEvent, historyFor_completeStream]
      rw [reconFold_db_historyFor_other wt merged fs now o l1 (reconInit db) s.id
        (fun t ht => h1 t ht)]
      rw [reconInit_db]
      simp [statusChangedEvent]

/-- C3 witness: a concrete active stream with merged branch is
completed and gains the status_changed history event in a dryRun false
run. -/
theorem merged_stream_classification_witness :
    findStream (reconcileWorktrees ⟨[⟨"s1", "t", "feature", "w1", .active, none, "u"⟩], []⟩
        [] ["feature"] (fun _ => false) "now" ⟨false, false, false⟩).2 "s1"
      = some ⟨"s1", "t", "feature", "w1", .completed, some "now", "now"⟩
    ∧ historyFor (reconcileWorktrees ⟨[⟨"s1", "t", "feature", "w1", .active, none, "u"⟩], []⟩
        [] ["feature"] (fun _ => false) "now" ⟨false, false, false⟩).2 "s1"
      = historyFor ⟨[⟨"s1", "t", "feature", "w1", .active, none, "u"⟩], []⟩ "s1"
          ++ [statusChangedEvent ⟨"s1", "t", "feature", "w1", .active, none, "u"⟩ .completed "now"] :=
  (merged_stream_classification ⟨[⟨"s1", "t", "feature", "w1", .active, none, "u"⟩], []⟩
    [] ["feature"] (fun _ => false) "now" ⟨false, false, false⟩
    ⟨"s1", "t", "feature", "w1", .active, none, "u"⟩
    (by decide) (by decide) (by decide)).2 rfl (by decide)

/-- C6: a persisted stream with unmerged branch whose worktree is found
neither in the mapping nor on disk is placed in the stale bucket with
newStatus undefined when autoArchiveStale is false, and its persisted
row and its history rows are left unchanged, for either dryRun value. -/
theorem stale_without_autoarchive_frame (db : DB) (wt : WorktreeMap) (merged : List String)
    (fs : String → Bool) (now : String) (o : ReconOptions) (s : Stream)
    (hnd : (db.streams.map (fun t => t.id)).Nodup)
    (hs : s ∈ getAllStreams db)
    (hm : merged.contains s.branch = false)
    (hl : lookupWt wt s.id = none)
    (hf : fs s.worktreePath = false)
    (ha : o.autoArchiveStale = false) :
    ({ streamId := s.id, title := s.title, branch := s.branch,
       worktreePath := s.worktreePath, previousStatus := s.status,
       newStatus := none, reason := "Worktree does not exist" } : ReconEntry)
        ∈ (reconcileWorktrees db wt merged fs now o).1.stale
    ∧ findStream (reconcileWorktrees db wt merged fs now o).2 s.id = findStream db s.id
    ∧ historyFor (reconcileWorktrees db wt merged fs now o).2 s.id = historyFor db s.id := by
  have hcase : staleCase wt merged fs s = true := by
    have hm2 : s.branch ∉ merged := by simpa using hm
    simp [staleCase, hasLiveWorktree, hm2, hl, hf]
  have heff : ∀ d : DB, staleEffect o now d s = d := by
    intro d
    unfold staleEffect
    rw [if_neg]
    rintro ⟨-, haa, -⟩
    rw [ha] at haa
    exact Bool.false_ne_true haa
  refine ⟨?_, ?_, ?_⟩
  · have hbucket : (reconcileWorktrees db wt merged fs now o).1.stale
        = ((getAllStreams db).filter (staleCase wt merged fs)).map
            (mkStaleEntry o.autoArchiveStale) := by
      simp only [reconcileWorktrees, reconFold_stale, reconInit]
      simp
    rw [hbucket, ha]
    exact List.mem_map_of_mem _ (List.mem_filter.mpr ⟨hs, hcase⟩)
  · obtain ⟨l1, l2, hsplit, h1, h2⟩ :=
      mem_split_ids (getAllStreams db) s hs (getAllStreams_ids_nodup db hnd)
    simp only [reconcileWorktrees]
    rw [hsplit, List.foldl_append, List.foldl_cons]
    rw [reconFold_db_findStream_other wt merged fs now o l2 _ s.id (fun t ht => h2 t ht)]
    rw [reconStep_db_stale wt merged fs now o _ s hm (by rw [hl]; simpa using hf), heff]
    rw [reconFold_db_findStream_other wt merged fs now o l1 (reconInit db) s.id
      (fun t ht => h1 t ht), reconInit_db]
  · obtain ⟨l1, l2, hsplit, h1, h2⟩ :=
      mem_split_ids (getAllStreams db) s hs (getAllStreams_ids_nodup db hnd)
    simp only [reconcileWorktrees]
    rw [hsplit, List.foldl_append, List.foldl_cons]
    rw [reconFold_db_historyFor_other wt merged fs now o l2 _ s.id (fun t ht => h2 t ht)]
    rw [reconStep_db_stale wt merged fs now o _ s hm (by rw [hl]; simpa using hf), heff]
    rw [reconFold_db_historyFor_other wt merged fs now o l1 (reconInit db) s.id
      (fun t ht => h1 t ht), reconInit_db]

/-- C6 witness: a concrete stale stream under autoArchiveStale false
and dryRun false lands in the stale bucket with no newStatus and its
row and history are untouched. -/
theorem stale_without_autoarchive_frame_witness :
    ({ streamId := "s2", title := "t", branch := "b", worktreePath := "w",
       previousStatus := .active, newStatus := none,
       reason := "Worktree does not exist" } : ReconEntry)
        ∈ (reconcileWorktrees ⟨[⟨"s2", "t", "b", "w", .active, none, "u"⟩], []⟩
            [] [] (fun _ => false) "now" ⟨false, false, false⟩).1.stale
    ∧ findStream (reconcileWorktrees ⟨[⟨"s2", "t", "b", "w", .active, none, "u"⟩], []⟩
            [] [] (fun _ => false) "now" ⟨false, false, false⟩).2 "s2"
        = findStream ⟨[⟨"s2", "t", "b", "w", .active, none, "u"⟩], []⟩ "s2"
    ∧ historyFor (reconcileWorktrees ⟨[⟨"s2", "t", "b", "w", .active, none, "u"⟩], []⟩
            [] [] (fun _ => false) "now" ⟨false, false, false⟩).2 "s2"
        = historyFor ⟨[⟨"s2", "t", "b", "w", .active, none, "u"⟩], []⟩ "s2" :=
  stale_without_autoarchive_frame ⟨[⟨"s2", "t", "b", "w", .active, none, "u"⟩], []⟩
    [] [] (fun _ => false) "now" ⟨false, false, false⟩
    ⟨"s2", "t", "b", "w", .active, none, "u"⟩
    (by decide) (by decide) (by decide) rfl rfl rfl

/-! ## Orphan bucket characterization (C4) -/

theorem bool_eq_of_iff {a b : Bool} (h : a = true ↔ b = true) : a = b := by
  cases a <;> cases b <;> simp_all

theorem lookupWt_isSome_of_key (wt : WorktreeMap) (kv : String × WorktreeInfo)
    (hkv : kv ∈ wt) : (lookupWt wt kv.1).isSome = true := by
  unfold lookupWt
  rw [Option.isSome_map']
  rw [List.find?_isSome]
  exact ⟨kv, hkv, by simp⟩

theorem matched_key_simplify (db : DB) (wt : WorktreeMap) (kv : String × WorktreeInfo)
    (hkv : kv ∈ wt) :
    (("main" :: ((getAllStreams db).filter (fun s => (lookupWt wt s.id).isSome)).map
        (fun s => s.id)).contains kv.1)
      = ((kv.1 == "main") || (((getAllStreams db).map (fun t => t.id)).contains kv.1)) := by
  apply bool_eq_of_iff
  constructor
  · intro h
    have hmem : kv.1 ∈ ("main" :: ((getAllStreams db).filter
        (fun s => (lookupWt wt s.id).isSome)).map (fun s => s.id)) := by
      simpa using h
    rcases List.mem_cons.mp hmem with he | hmap
    · simp [he]
    · rcases List.mem_map.mp hmap with ⟨s, hsf, hse⟩
      have hin : kv.1 ∈ (getAllStreams db).map (fun t => t.id) :=
        hse ▸ List.mem_map_of_mem _ (List.mem_of_mem_filter hsf)
      simp only [Bool.or_eq_true]
      right
      simpa using hin
  · intro h
    have h2 : kv.1 = "main" ∨ kv.1 ∈ (getAllStreams db).map (fun t => t.id) := by
      simpa using h
    have hgoal : kv.1 ∈ ("main" :: ((getAllStreams db).filter
        (fun s => (lookupWt wt s.id).isSome)).map (fun s => s.id)) := by
      rcases h2 with he | hmem
      · simp [he]
      · rcases List.mem_map.mp hmem with ⟨s, hsg, hse⟩
        have hlu : (lookupWt wt s.id).isSome = true := by
          rw [hse]
          exact lookupWt_isSome_of_key wt kv hkv
        exact List.mem_cons_of_mem _
          (hse ▸ List.mem_map_of_mem _ (List.mem_filter.mpr ⟨hsg, hlu⟩))
    simpa using hgoal

theorem reconcile_orphaned_char (db : DB) (wt : WorktreeMap) (merged : List String)
    (fs : String → Bool) (now : String) (o : ReconOptions) :
    (reconcileWorktrees db wt merged fs now o).1.orphaned
      = (wt.filter (orphanCond db)).map Prod.snd
    ∧ (reconcileWorktrees db wt merged fs now o).1.summary.orphaned
      = (wt.filter (orphanCond db)).length := by
  have hflt : wt.filter (fun kv =>
        !((("main" :: ((getAllStreams db).filter (fun s => (lookupWt wt s.id).isSome)).map
            (fun s => s.id)).contains kv.1)) && !kv.2.isMain)
      = wt.filter (orphanCond db) := by
    apply List.filter_congr
    intro kv hkv
    rw [matched_key_simplify db wt kv hkv]
    simp [orphanCond, Bool.not_or, Bool.and_assoc]
  constructor
  · simp only [reconcileWorktrees, orphanPass_eq, reconFold_matched, reconInit]
    simp only [List.nil_append, List.singleton_append]
    rw [hflt]
  · simp only [reconcileWorktrees, orphanPass_eq, reconFold_matched, reconInit]
    simp only [List.nil_append, List.singleton_append]
    rw [hflt]

theorem count_map_fst (l : List (String × WorktreeInfo)) (k : String) :
    (l.map Prod.fst).count k = l.countP (fun kv => kv.1 == k) := by
  induction l with
  | nil => rfl
  | cons kv l ih =>
    rw [List.map_cons, List.count_cons, List.countP_cons, ih]

/-- C4: every live worktree key that is not the main sentinel, is not
tagged isMain, and matches no persisted stream id appears exactly once
among the orphan pairs whose infos form the orphaned bucket;
summary.orphaned equals the length of that bucket; the main sentinel
key never appears among the orphan pairs and no orphaned info is
tagged main. -/
theorem orphan_bucket_exact (db : DB) (wt : WorktreeMap) (merged : List String)
    (fs : String → Bool) (now : String) (o : ReconOptions) (k : String)
    (hnodup : (wt.map Prod.fst).Nodup)
    (hkmem : k ∈ wt.map Prod.fst)
    (hkmain : k ≠ "main")
    (hknotmain : ∀ w : WorktreeInfo, (k, w) ∈ wt → w.isMain = false)
    (hkid : ∀ s ∈ db.streams, s.id ≠ k) :
    (reconcileWorktrees db wt merged fs now o).1.orphaned
      = (wt.filter (orphanCond db)).map Prod.snd
    ∧ (reconcileWorktrees db wt merged fs now o).1.summary.orphaned
      = (reconcileWorktrees db wt merged fs now o).1.orphaned.length
    ∧ ((wt.filter (orphanCond db)).map Prod.fst).count k = 1
    ∧ "main" ∉ (wt.filter (orphanCond db)).map Prod.fst
    ∧ ∀ w ∈ (reconcileWorktrees db wt merged fs now o).1.orphaned, w.isMain = false := by
  obtain ⟨hochar, hscount⟩ := reconcile_orphaned_char db wt merged fs now o
  refine ⟨hochar, ?_, ?_, ?_, ?_⟩
  · rw [hochar, hscount, List.length_map]
  · rw [count_map_fst, List.countP_filter]
    have hpt : ∀ kv ∈ wt, ((kv.1 == k) && orphanCond db kv) = (kv.1 == k) := by
      intro kv hkv
      by_cases he : kv.1 = k
      · have h1 : (kv.1 == "main") = false := by
          simp [he]
          exact hkmain
        have h2 : (((getAllStreams db).map (fun t => t.id)).contains kv.1) = false := by
          cases hb : (((getAllStreams db).map (fun t => t.id)).contains kv.1)
          · rfl
          · exfalso
            have hmem2 : kv.1 ∈ (getAllStreams db).map (fun t => t.id) := by simpa using hb
            rcases List.mem_map.mp hmem2 with ⟨s, hsg, hse⟩
            exact hkid s (List.mem_of_mem_filter hsg) (by rw [hse, he])
        have h3 : kv.2.isMain = false := by
          apply hknotmain kv.2
          have : kv = (k, kv.2) := by
            rw [← he]
          rw [← this]
          exact hkv
        have hoc : orphanCond db kv = true := by
          rw [orphanCond, h1, h2, h3]
          rfl
        rw [hoc, Bool.and_true]
      · have hne : (kv.1 == k) = false := by simp [he]
        simp [hne]
    rw [List.countP_congr (fun x hx => by rw [hpt x hx]), ← count_map_fst]
    exact List.count_eq_one_of_mem hnodup hkmem
  · intro hmem
    rcases List.mem_map.mp hmem with ⟨kv, hkvf, hfst⟩
    have hcond := List.of_mem_filter hkvf
    rw [orphanCond] at hcond
    have : (kv.1 == "main") = false := by
      cases hb : (kv.1 == "main") <;> simp_all
    simp [hfst] at this
  · intro w hw
    rw [hochar] at hw
    rcases List.mem_map.mp hw with ⟨kv, hkvf, hsnd⟩
    have hcond := List.of_mem_filter hkvf
    rw [orphanCond] at hcond
    have : kv.2.isMain = false := by
      cases hb : kv.2.isMain <;> simp_all
    rw [← hsnd]
    exact this

/-- C4 witness: a concrete mapping with the main worktree and one
unmatched key s3 against a database holding only stream s1. -/
theorem orphan_bucket_exact_witness :
    (reconcileWorktrees ⟨[⟨"s1", "t", "b", "w", .active, none, "u"⟩], []⟩
        [("main", ⟨"/m", "main", "h0", true⟩), ("s3", ⟨"/s3", "b3", "h3", false⟩)]
        [] (fun _ => false) "now" ⟨true, false, false⟩).1.orphaned
      = ([("main", (⟨"/m", "main", "h0", true⟩ : WorktreeInfo)),
          ("s3", ⟨"/s3", "b3", "h3", false⟩)].filter
            (orphanCond ⟨[⟨"s1", "t", "b", "w", .active, none, "u"⟩], []⟩)).map Prod.snd
    ∧ (reconcileWorktrees ⟨[⟨"s1", "t", "b", "w", .active, none, "u"⟩], []⟩
        [("main", ⟨"/m", "main", "h0", true⟩), ("s3", ⟨"/s3", "b3", "h3", false⟩)]
        [] (fun _ => false) "now" ⟨true, false, false⟩).1.summary.orphaned
      = (reconcileWorktrees ⟨[⟨"s1", "t", "b", "w", .active, none, "u"⟩], []⟩
        [("main", ⟨"/m", "main", "h0", true⟩), ("s3", ⟨"/s3", "b3", "h3", false⟩)]
        [] (fun _ => false) "now" ⟨true, false, false⟩).1.orphaned.length
    ∧ (([("main", (⟨"/m", "main", "h0", true⟩ : WorktreeInfo)),
          ("s3", ⟨"/s3", "b3", "h3", false⟩)].filter
            (orphanCond ⟨[⟨"s1", "t", "b", "w", .active, none, "u"⟩], []⟩)).map Prod.fst).count "s3" = 1
    ∧ "main" ∉ ([("main", (⟨"/m", "main", "h0", true⟩ : WorktreeInfo)),
          ("s3", ⟨"/s3", "b3", "h3", false⟩)].filter
            (orphanCond ⟨[⟨"s1", "t", "b", "w", .active, none, "u"⟩], []⟩)).map Prod.fst
    ∧ ∀ w ∈ (reconcileWorktrees ⟨[⟨"s1", "t", "b", "w", .active, none, "u"⟩], []⟩
        [("main", ⟨"/m", "main", "h0", true⟩), ("s3", ⟨"/s3", "b3", "h3", false⟩)]
        [] (fun _ => false) "now" ⟨true, false, false⟩).1.orphaned, w.isMain = false :=
  orphan_bucket_exact ⟨[⟨"s1", "t", "b", "w", .active, none, "u"⟩], []⟩
    [("main", ⟨"/m", "main", "h0", true⟩), ("s3", ⟨"/s3", "b3", "h3", false⟩)]
    [] (fun _ => false) "now" ⟨true, false, false⟩ "s3"
    (by decide) (by decide) (by decide)
    (by
      intro w hw
      rcases List.mem_cons.mp hw with h | h
      · simp at h
      · rcases List.mem_cons.mp h with h2 | h2
        · simp only [Prod.mk.injEq] at h2
          rw [h2.2]
        · cases h2)
    (by decide)

/-! ## Claim theorems for the retirement service -/

/-- C7: retireStream reports success exactly when its errors list is
empty after all steps; the worktree-deletion and plan-cleanup outcomes
are independent of the archive-write outcome (replacing a failed
archive write by a successful one changes neither field); and a failed
archive write is recorded in the errors list with its step prefix. -/
theorem retire_success_iff_no_errors (sid : String) (o : RetireOptions)
    (env : RetireEnv) (msg path : String) :
    ((retireStream sid o env).success = true ↔ (retireStream sid o env).errors = [])
    ∧ (retireStream sid o env).worktreeDeleted
        = (retireStream sid o { env with archiveWrite := .ok path }).worktreeDeleted
    ∧ (retireStream sid o env).planFilesCleanedUp
        = (retireStream sid o { env with archiveWrite := .ok path }).planFilesCleanedUp
    ∧ (o.writeArchive = true → env.archiveWrite = .error msg →
        ("Archive write failed: " ++ msg) ∈ (retireStream sid o env).errors) := by
  obtain ⟨aw, qj, wod, gwr, mr, bd, pdo, pfo, prd, prf, pcp⟩ := env
  refine ⟨?_, rfl, rfl, ?_⟩
  · simp only [retireStream]
    exact List.isEmpty_iff
  · intro hw he
    simp only at he
    simp only [retireStream, hw, he]
    simp

/-- C7 witness: with a failing archive write and every other operation
succeeding, the archive error is recorded while the worktree-deletion
outcome equals the outcome of the run whose archive write succeeds. -/
theorem retire_success_iff_no_errors_witness :
    (("Archive write failed: " ++ "boom")
        ∈ (retireStream "s1" ⟨true, true, true, true, true⟩
            ⟨.error "boom", .ok 1, true, .ok (), .ok (), .ok (),
             false, false, .ok (), .ok (), .ok ()⟩).errors)
    ∧ (retireStream "s1" ⟨true, true, true, true, true⟩
          ⟨.error "boom", .ok 1, true, .ok (), .ok (), .ok (),
           false, false, .ok (), .ok (), .ok ()⟩).worktreeDeleted
        = (retireStream "s1" ⟨true, true, true, true, true⟩
            ⟨.ok "p", .ok 1, true, .ok (), .ok (), .ok (),
             false, false, .ok (), .ok (), .ok ()⟩).worktreeDeleted :=
  ⟨(retire_success_iff_no_errors "s1" ⟨true, true, true, true, true⟩
      ⟨.error "boom", .ok 1, true, .ok (), .ok (), .ok (),
       false, false, .ok (), .ok (), .ok ()⟩ "boom" "p").2.2.2 rfl rfl,
   (retire_success_iff_no_errors "s1" ⟨true, true, true, true, true⟩
      ⟨.error "boom", .ok 1, true, .ok (), .ok (), .ok (),
       false, false, .ok (), .ok (), .ok ()⟩ "boom" "p").2.1⟩

/-- C10: when the computed worktree path does not exist on disk,
retireStream reports worktreeDeleted true regardless of every option,
in particular also when deleteWorktree is false. -/
theorem missing_worktree_reported_deleted (sid : String) (o : RetireOptions)
    (env : RetireEnv) (h : env.worktreeOnDisk = false) :
    (retireStream sid o env).worktreeDeleted = true := by
  simp only [retireStream, h]
  simp

/-- C10 witness: a concrete run with deleteWorktree false and a missing
worktree path still reports worktreeDeleted true. -/
theorem missing_worktree_reported_deleted_witness :
    (retireStream "s1" ⟨false, true, true, true, true⟩
        ⟨.ok "p", .ok 1, false, .ok (), .ok (), .ok (),
         false, false, .ok (), .ok (), .ok ()⟩).worktreeDeleted = true :=
  missing_worktree_reported_deleted "s1" ⟨false, true, true, true, true⟩
    ⟨.ok "p", .ok 1, false, .ok (), .ok (), .ok (),
     false, false, .ok (), .ok (), .ok ()⟩ rfl

/-! ## Claim theorems for the commit scanner -/

theorem hasCommitKey_append (t : List CommitRec) (c x : CommitRec)
    (h : hasCommitKey t x = true) : hasCommitKey (t ++ [c]) x = true := by
  simp only [hasCommitKey, List.any_append]
  simp only [hasCommitKey] at h
  simp [h]

theorem scanInsertLoop_hasKey_mono (cs : List CommitRec) :
    ∀ (t : List CommitRec) (n : Nat) (r : Nat × List CommitRec),
      scanInsertLoop t cs n = .ok r →
      ∀ x, hasCommitKey t x = true → hasCommitKey r.2 x = true := by
  induction cs with
  | nil =>
    intro t n r h x hx
    simp only [scanInsertLoop] at h
    cases h
    exact hx
  | cons c cs ih =>
    intro t n r h x hx
    simp only [scanInsertLoop, insertCommit] at h
    by_cases hk : hasCommitKey t c = true
    · rw [if_pos hk] at h
      simp only [InsErr.isUnique, if_pos rfl] at h
      exact ih t n r h x hx
    · rw [if_neg hk] at h
      exact ih (t ++ [c]) (n + 1) r h x (hasCommitKey_append t c x hx)

theorem scanInsertLoop_all_inserted (cs : List CommitRec) :
    ∀ (t : List CommitRec) (n : Nat) (r : Nat × List CommitRec),
      scanInsertLoop t cs n = .ok r →
      ∀ c ∈ cs, hasCommitKey r.2 c = true := by
  induction cs with
  | nil =>
    intro t n r _ c hc
    cases hc
  | cons c0 cs ih =>
    intro t n r h c hc
    simp only [scanInsertLoop, insertCommit] at h
    rcases List.mem_cons.mp hc with rfl | hc2
    · by_cases hk : hasCommitKey t c = true
      · rw [if_pos hk] at h
        simp only [InsErr.isUnique, if_pos rfl] at h
        exact scanInsertLoop_hasKey_mono cs t n r h c hk
      · rw [if_neg hk] at h
        exact scanInsertLoop_hasKey_mono cs (t ++ [c]) (n + 1) r h c
          (by simp [hasCommitKey])
    · by_cases hk : hasCommitKey t c0 = true
      · rw [if_pos hk] at h
        simp only [InsErr.isUnique, if_pos rfl] at h
        exact ih t n r h c hc2
      · rw [if_neg hk] at h
        exact ih (t ++ [c0]) (n + 1) r h c hc2

theorem scanInsertLoop_absorb (cs : List CommitRec) (t : List CommitRec) (n : Nat)
    (hall : ∀ c ∈ cs, hasCommitKey t c = true) :
    scanInsertLoop t cs n = .ok (n, t) := by
  induction cs with
  | nil => rfl
  | cons c cs ih =>
    have hk : hasCommitKey t c = true := hall c (List.mem_cons_self _ _)
    simp only [scanInsertLoop, insertCommit, if_pos hk, InsErr.isUnique, if_pos rfl]
    exact ih (fun x hx => hall x (List.mem_cons_of_mem _ hx))

/-- C8: running the commit scan twice in sequence on the same stream
set and the same git-log output leaves the commits table exactly as
after the first run; every duplicate key insertion of the second run is
absorbed by the uniqueness constraint without an error reaching the
caller, and the second run adds zero commits. -/
theorem scan_idempotent (streams : List Stream) (table : List CommitRec)
    (env : ScanEnv) (sid : String) (n1 : Nat) (t1 : List CommitRec)
    (h : scanStreamCommits streams table env sid = .ok (n1, t1)) :
    scanStreamCommits streams t1 env sid = .ok (0, t1) := by
  unfold scanStreamCommits at h ⊢
  cases hfind : (streams.filter (fun s => s.id != "main")).find? (fun s => s.id == sid) with
  | none =>
    rw [hfind] at h
    cases h
  | some s =>
    rw [hfind] at h
    dsimp only at h
    cases hloop : scanInsertLoop table (getWorktreeCommits s env) 0 with
    | ok r =>
      rw [hloop] at h
      dsimp only at h
      cases h
      have hall : ∀ c ∈ getWorktreeCommits s env, hasCommitKey t1 c = true := by
        intro c hc
        exact scanInsertLoop_all_inserted (getWorktreeCommits s env) table 0 (n1, t1)
          hloop c hc
      dsimp only
      rw [scanInsertLoop_absorb (getWorktreeCommits s env) t1 0 hall]
    | error e =>
      rw [hloop] at h
      cases e <;> simp at h

/-- C8 witness: scanning a concrete one-commit log twice keeps the
table at one row and the second run reports zero additions and no
error. -/
theorem scan_idempotent_witness :
    scanStreamCommits [⟨"s1", "t", "b", "w", .active, none, "u"⟩]
      [{ streamId := "s1", commitHash := "h", author := "a", timestamp := "t",
         message := "m", filesChanged := 0 }]
      ⟨true, true, "h|a|t|m|"⟩ "s1"
    = .ok (0, [{ streamId := "s1", commitHash := "h", author := "a", timestamp := "t",
                 message := "m", filesChanged := 0 }]) :=
  scan_idempotent [⟨"s1", "t", "b", "w", .active, none, "u"⟩] []
    ⟨true, true, "h|a|t|m|"⟩ "s1" 1
    [{ streamId := "s1", commitHash := "h", author := "a", timestamp := "t",
       message := "m", filesChanged := 0 }]
    (by rfl)

/-! ## Claim theorems for the log parser -/

theorem specParseAux_length (sid : String) (ls : List (List Char)) :
    ∀ (c : CommitRec) (fc : Nat),
      (specParseAux sid c fc ls).length = 1 + ls.countP (fun l => l.contains '|') := by
  induction ls with
  | nil =>
    intro c fc
    simp [specParseAux]
  | cons l ls ih =>
    intro c fc
    rw [List.countP_cons]
    cases hb : l.contains '|' <;> rw [specParseAux, hb] <;> simp [ih] <;> omega

theorem specParse_length (sid : String) (ls : List (List Char)) :
    (specParse sid ls).length = ls.countP (fun l => l.contains '|') := by
  induction ls with
  | nil => rfl
  | cons l ls ih =>
    rw [List.countP_cons]
    cases hb : l.contains '|' <;> rw [specParse, hb] <;>
      simp [ih, specParseAux_length] <;> omega

theorem parse_loop_some (sid : String) (ls : List (List Char)) :
    ∀ (acc : List CommitRec) (c : CommitRec) (fc : Nat),
      wfGitLogLines ls →
      ((ls.foldl (parseStep sid) ⟨acc, some c, 0, fc⟩).acc
          ++ flushCur (ls.foldl (parseStep sid) ⟨acc, some c, 0, fc⟩))
        = acc ++ specParseAux sid c fc ls := by
  induction ls with
  | nil =>
    intro acc c fc _
    simp [flushCur, specParseAux]
  | cons l ls ih =>
    intro acc c fc hwf
    have hwf2 : wfGitLogLines ls := fun x hx => hwf x (List.mem_cons_of_mem _ hx)
    rw [List.foldl_cons]
    cases hl : l.contains '|'
    · have hl2 : ¬ '|' ∈ l := by simpa using hl
      cases hs : isStatLine l
      · have hstep : parseStep sid ⟨acc, some c, 0, fc⟩ l = ⟨acc, some c, 0, fc⟩ := by
          simp [parseStep, hl2, hs]
        rw [hstep, ih _ _ _ hwf2]
        have haux : specParseAux sid c fc (l :: ls) = specParseAux sid c fc ls := by
          simp [specParseAux, hl2, hs]
        rw [haux]
      · have hstep : parseStep sid ⟨acc, some c, 0, fc⟩ l = ⟨acc, some c, 0, fc + 1⟩ := by
          simp [parseStep, hl2, hs]
        rw [hstep, ih _ _ _ hwf2]
        have haux : specParseAux sid c fc (l :: ls) = specParseAux sid c (fc + 1) ls := by
          simp [specParseAux, hl2, hs]
        rw [haux]
    · have hl2 : '|' ∈ l := by simpa using hl
      have h4 : 4 ≤ (jsSplitChar '|' l).length := hwf l (List.mem_cons_self _ _) hl
      have hstep : parseStep sid ⟨acc, some c, 0, fc⟩ l
          = ⟨acc ++ [{ c with filesChanged := fc }],
             some (mkHeaderRec sid (jsSplitChar '|' l)), 0, 0⟩ := by
        simp [parseStep, hl2, h4, flushCur]
      rw [hstep, ih _ _ _ hwf2]
      have haux : specParseAux sid c fc (l :: ls)
          = { c with filesChanged := fc }
              :: specParseAux sid (mkHeaderRec sid (jsSplitChar '|' l)) 0 ls := by
        simp [specParseAux, hl2]
      rw [haux]
      simp

theorem parse_loop_none (sid : String) (ls : List (List Char)) :
    ∀ (acc : List CommitRec) (p fc : Nat),
      wfGitLogLines ls →
      ((ls.foldl (parseStep sid) ⟨acc, none, p, fc⟩).acc
          ++ flushCur (ls.foldl (parseStep sid) ⟨acc, none, p, fc⟩))
        = acc ++ specParse sid ls := by
  induction ls with
  | nil =>
    intro acc p fc _
    simp [flushCur, specParse]
  | cons l ls ih =>
    intro acc p fc hwf
    have hwf2 : wfGitLogLines ls := fun x hx => hwf x (List.mem_cons_of_mem _ hx)
    rw [List.foldl_cons]
    cases hl : l.contains '|'
    · have hl2 : ¬ '|' ∈ l := by simpa using hl
      cases hs : isStatLine l
      · have hstep : parseStep sid ⟨acc, none, p, fc⟩ l = ⟨acc, none, p, fc⟩ := by
          simp [parseStep, hl2, hs]
        rw [hstep, ih _ _ _ hwf2]
        have haux : specParse sid (l :: ls) = specParse sid ls := by
          simp [specParse, hl2]
        rw [haux]
      · have hstep : parseStep sid ⟨acc, none, p, fc⟩ l = ⟨acc, none, p, fc + 1⟩ := by
          simp [parseStep, hl2, hs]
        rw [hstep, ih _ _ _ hwf2]
        have haux : specParse sid (l :: ls) = specParse sid ls := by
          simp [specParse, hl2]
        rw [haux]
    · have hl2 : '|' ∈ l := by simpa using hl
      have h4 : 4 ≤ (jsSplitChar '|' l).length := hwf l (List.mem_cons_self _ _) hl
      have hstep : parseStep sid ⟨acc, none, p, fc⟩ l
          = ⟨acc, some (mkHeaderRec sid (jsSplitChar '|' l)), 0, 0⟩ := by
        simp [parseStep, hl2, h4, flushCur]
      rw [hstep, parse_loop_some sid ls _ _ _ hwf2]
      have haux : specParse sid (l :: ls)
          = specParseAux sid (mkHeaderRec sid (jsSplitChar '|' l)) 0 ls := by
        simp [specParse, hl2]
      rw [haux]

/-- C9 counterexample: on the output of one commit header followed by a
numstat line whose filename contains the separator character, the
parser emits the same commit twice, although exactly one line is a
well-formed commit header; the claimed one-record-per-hash property
fails. -/
theorem parser_duplicate_record_cex :
    parseGitLog "s" "h|a|t|m|\n1 2 a|b"
      = [{ streamId := "s", commitHash := "h", author := "a", timestamp := "t",
           message := "m", filesChanged := 0 },
         { streamId := "s", commitHash := "h", author := "a", timestamp := "t",
           message := "m", filesChanged := 0 }]
    ∧ ((jsSplitChar '\n' (jsTrim "h|a|t|m|\n1 2 a|b".data)).countP
        (fun l => l.contains '|' && decide (4 ≤ (jsSplitChar '|' l).length))) = 1 := by
  decide

/-- C9 (amended): when every line of the git-log output that contains
the separator is a commit header with at least four fields, the parser
produces exactly the spec-described record list: one record per commit
header line, each counting the numeric-stat or binary-placeholder lines
between its header and the next header (or end of output). -/
theorem parser_one_record_per_header (sid : String) (lines : List (List Char))
    (hwf : wfGitLogLines lines) :
    parseGitLogLines sid lines = specParse sid lines
    ∧ (specParse sid lines).length = lines.countP (fun l => l.contains '|') := by
  constructor
  · have h := parse_loop_none sid lines [] 0 0 hwf
    simpa [parseGitLogLines] using h
  · exact specParse_length sid lines

/-- C9 witness: a concrete two-commit log with stat lines parses to the
spec record list. -/
theorem parser_one_record_per_header_witness :
    parseGitLogLines "s" ["h1|a|t|m|".data, "1 2 f.txt".data, "- - g.bin".data,
        "h2|a|t|m2|".data, "3 4 h.txt".data]
      = specParse "s" ["h1|a|t|m|".data, "1 2 f.txt".data, "- - g.bin".data,
        "h2|a|t|m2|".data, "3 4 h.txt".data]
    ∧ (specParse "s" ["h1|a|t|m|".data, "1 2 f.txt".data, "- - g.bin".data,
        "h2|a|t|m2|".data, "3 4 h.txt".data]).length
      = (["h1|a|t|m|".data, "1 2 f.txt".data, "- - g.bin".data,
          "h2|a|t|m2|".data, "3 4 h.txt".data].countP (fun l => l.contains '|')) :=
  parser_one_record_per_header "s"
    ["h1|a|t|m|".data, "1 2 f.txt".data, "- - g.bin".data,
     "h2|a|t|m2|".data, "3 4 h.txt".data]
    (by unfold wfGitLogLines; decide)


end StreamDash
